import Mathlib

/-!
Verification of the calibration classes of the Lab_Calibration repository
(file CalibrationClasses.py), shallowly embedded over the real numbers.

External collaborators (the numpy random stream, the survival simulator
and the summary-statistics helpers of the SimPy package) are modelled as
oracle function parameters; the configuration module CalibrationSettings
is modelled as a record of parameters.
-/

/-- Configuration constants imported as the module Sets
(CalibrationSettings): prior bounds, prior sample count, simulated
population size, time horizon, and the observed clinical statistic. -/
structure Settings where
  PRIOR_L : ℝ
  PRIOR_U : ℝ
  PRIOR_N : ℕ
  SIM_POP_SIZE : ℕ
  TIME_STEPS : ℕ
  OBS_MEAN : ℝ
  OBS_STDEV : ℝ

/-- scipy.stats.norm.pdf(x, loc, scale): the Gaussian probability density
at x with mean loc and standard deviation scale. -/
noncomputable def normPdf (x loc scale : ℝ) : ℝ :=
  (scale * Real.sqrt (2 * Real.pi))⁻¹ * Real.exp (-(x - loc) ^ 2 / (2 * scale ^ 2))

/-- Line 35: self.cohortIDs = range(n_samples). -/
def cohortIDs_of (n_samples : ℕ) : List ℕ := List.range n_samples

/-- Lines 38-41: self.mortalitySamples = np.random.uniform(low=Sets.PRIOR_L,
high=Sets.PRIOR_U, size=Sets.PRIOR_N).  The uniform stream is the oracle
uniformDraw, applied to the low and high bounds and the draw index; note
that the size of the draw is Sets.PRIOR_N, not n_samples. -/
def mortalitySamples_of (sets : Settings) (uniformDraw : ℝ → ℝ → ℕ → ℝ) : List ℝ :=
  (List.range sets.PRIOR_N).map (uniformDraw sets.PRIOR_L sets.PRIOR_U)

/-- Lines 54-69: for each cohort id, the likelihood weight is the Gaussian
density of Sets.OBS_MEAN with location the simulated mean survival time of
that cohort (oracle meanSurvival, standing for
multiCohortOutcomes.meanSurvivalTimes) and scale Sets.OBS_STDEV. -/
noncomputable def likelihood_weight (sets : Settings) (meanSurvival : ℕ → ℝ) (cid : ℕ) : ℝ :=
  normPdf sets.OBS_MEAN (meanSurvival cid) sets.OBS_STDEV

/-- Lines 54-69: the list of raw likelihood weights, one per cohort id. -/
noncomputable def weights_of (sets : Settings) (meanSurvival : ℕ → ℝ) (n_samples : ℕ) : List ℝ :=
  (cohortIDs_of n_samples).map (likelihood_weight sets meanSurvival)

/-- Lines 71-73: sum_weights = sum(weights);
normalizedWeights = np.divide(weights, sum_weights).  There is no branch
on the value of sum_weights: the division is performed unconditionally.
(In IEEE arithmetic a zero sum yields NaN entries; in this real-number
model division by zero yields 0.) -/
noncomputable def normalize_weights (weights : List ℝ) : List ℝ :=
  weights.map (fun w => w / weights.sum)

/-- Lines 76-85: the data rows of CalibrationResults.csv, one row
(cohort id, normalized weight, mortality sample) for each index
i in range(len(mortalitySamples)); written unconditionally. -/
noncomputable def calibration_csv_rows (ids : List ℕ) (nws samples : List ℝ) :
    List (ℕ × ℝ × ℝ) :=
  (List.range samples.length).map (fun i => (ids.getD i 0, nws.getD i 0, samples.getD i 0))

/-- The state written by Calibration.sample_posterior. -/
structure CalibrationResult where
  cohortIDs : List ℕ
  mortalitySamples : List ℝ
  normalizedWeights : List ℝ
  csvRows : List (ℕ × ℝ × ℝ)

/-- Lines 26-85: Calibration.sample_posterior(n_samples), assembled from
the line-by-line pieces above. -/
noncomputable def sample_posterior (sets : Settings) (uniformDraw : ℝ → ℝ → ℕ → ℝ)
    (meanSurvival : ℕ → ℝ) (n_samples : ℕ) : CalibrationResult :=
  { cohortIDs := cohortIDs_of n_samples
    mortalitySamples := mortalitySamples_of sets uniformDraw
    normalizedWeights := normalize_weights (weights_of sets meanSurvival n_samples)
    csvRows := calibration_csv_rows (cohortIDs_of n_samples)
      (normalize_weights (weights_of sets meanSurvival n_samples))
      (mortalitySamples_of sets uniformDraw) }

/-- Line 91: Calibration.get_effective_sample_size, the reciprocal of the
sum of squared normalized weights. -/
noncomputable def get_effective_sample_size (ws : List ℝ) : ℝ :=
  1 / (ws.map (fun w => w ^ 2)).sum

/-- One parsed data row of the calibration results file: cohort id
(converted to an integer), likelihood weight, mortality probability. -/
structure CalibrationRow where
  id : ℤ
  weight : ℝ
  mortalityProb : ℝ

/-- The argument record handed to the external simulator
SurvivalCls.MultiCohort(ids, pop_sizes, mortality_probs) together with the
horizon of the subsequent simulate(time_steps) call. -/
structure MultiCohortSpec where
  ids : List ℤ
  popSizes : List ℕ
  mortalityProbs : List ℝ
  timeSteps : ℕ

/-- The state of a CalibratedModel instance. -/
structure CalibratedModel where
  cohortIDs : List ℤ
  weights : List ℝ
  mortalityProbs : List ℝ
  resampledMortalityProb : List ℝ
  multiCohorts : Option MultiCohortSpec

/-- Lines 97-116: CalibratedModel.__init__ on the parsed rows of the
calibration file (the external reader IO.read_csv_cols enforces the
3-column shape and the float conversion).  Ids, weights and mortality
probabilities are stored column-wise; each mortality probability is
multiplied by drug_effectiveness_ratio; no further validation is done. -/
def CalibratedModel.init (rows : List CalibrationRow) (drug_effectiveness_ratio : ℝ) :
    CalibratedModel :=
  { cohortIDs := rows.map (fun r => r.id)
    weights := rows.map (fun r => r.weight)
    mortalityProbs := rows.map (fun r => r.mortalityProb * drug_effectiveness_ratio)
    resampledMortalityProb := []
    multiCohorts := none }

/-- Lines 118-154: CalibratedModel.simulate.  The categorical draw
np.random.choice(range(len(weights)), size=num, replace=True, p=weights)
is modelled by the oracle choiceIdx giving the sampled row index for each
of the num draws.  The resampled mortality probabilities are appended to
the instance list self.resampledMortalityProb (never cleared), and the
whole accumulated list is what is passed to MultiCohort; the ids passed
are the resampled ids, unless cohort_ids is provided, in which case they
are used verbatim. -/
def CalibratedModel.simulate (m : CalibratedModel) (num_of_simulated_cohorts : ℕ)
    (cohort_size : ℕ) (time_steps : ℕ) (choiceIdx : ℕ → ℕ)
    (cohort_ids : Option (List ℤ)) : CalibratedModel :=
  { m with
    resampledMortalityProb := m.resampledMortalityProb ++
      ((List.range num_of_simulated_cohorts).map choiceIdx).map
        (fun i => m.mortalityProbs.getD i 0)
    multiCohorts := some
      { ids :=
          match cohort_ids with
          | none => ((List.range num_of_simulated_cohorts).map choiceIdx).map
              (fun i => m.cohortIDs.getD i 0)
          | some given => given
        popSizes := List.replicate num_of_simulated_cohorts cohort_size
        mortalityProbs := m.resampledMortalityProb ++
          ((List.range num_of_simulated_cohorts).map choiceIdx).map
            (fun i => m.mortalityProbs.getD i 0)
        timeSteps := time_steps } }

/-- Lines 167-179: CalibratedModel.get_mortality_estimate_credible_interval.
The summary-statistics collaborator Stat.SummaryStat is modelled by the
oracles summaryMean and summaryPI; both are applied to the accumulated
resampledMortalityProb list. -/
def CalibratedModel.get_mortality_estimate_credible_interval (m : CalibratedModel)
    (summaryMean : List ℝ → ℝ) (summaryPI : List ℝ → ℝ → ℝ × ℝ) (alpha : ℝ) :
    ℝ × (ℝ × ℝ) :=
  (summaryMean m.resampledMortalityProb, summaryPI m.resampledMortalityProb alpha)

/-! ### Helper lemmas -/

lemma normPdf_pos (x loc scale : ℝ) (h : 0 < scale) : 0 < normPdf x loc scale := by
  unfold normPdf
  have hs : 0 < Real.sqrt (2 * Real.pi) := Real.sqrt_pos.mpr (by positivity)
  exact mul_pos (inv_pos.mpr (mul_pos h hs)) (Real.exp_pos _)

lemma list_sum_map_div (l : List ℝ) (s : ℝ) :
    (l.map (fun w => w / s)).sum = l.sum / s := by
  induction l with
  | nil => simp
  | cons a t ih => simp [ih, add_div]

lemma list_sum_map_sub_sq (l : List ℝ) (c : ℝ) :
    (l.map (fun w => (w - c) ^ 2)).sum
      = (l.map (fun w => w ^ 2)).sum - 2 * c * l.sum + l.length * c ^ 2 := by
  induction l with
  | nil => simp
  | cons a t ih =>
      simp only [List.map_cons, List.sum_cons, List.length_cons, ih]
      push_cast
      ring

lemma list_sum_mul_one_sub (l : List ℝ) :
    (l.map (fun w => w * (1 - w))).sum = l.sum - (l.map (fun w => w ^ 2)).sum := by
  induction l with
  | nil => simp
  | cons a t ih =>
      simp only [List.map_cons, List.sum_cons, ih]
      ring

lemma list_sum_const (l : List ℝ) (c : ℝ) (h : ∀ x ∈ l, x = c) :
    l.sum = l.length * c := by
  induction l with
  | nil => simp
  | cons a t ih =>
      simp only [List.sum_cons, List.length_cons]
      rw [h a (List.mem_cons_self a t), ih (fun x hx => h x (List.mem_cons_of_mem a hx))]
      push_cast
      ring

lemma list_getD_mem (l : List ℝ) (i : ℕ) (h : i < l.length) : l.getD i 0 ∈ l := by
  induction l generalizing i with
  | nil => simp at h
  | cons a t ih =>
      cases i with
      | zero => simp
      | succ j =>
          simp only [List.getD_cons_succ]
          exact List.mem_cons_of_mem a (ih j (by simpa using h))

lemma list_exists_getD_of_mem (l : List ℝ) (x : ℝ) (hx : x ∈ l) :
    ∃ i, i < l.length ∧ l.getD i 0 = x := by
  induction l with
  | nil => simp at hx
  | cons a t ih =>
      rcases List.mem_cons.mp hx with rfl | hx
      · exact ⟨0, by simp, by simp⟩
      · obtain ⟨i, hi, hget⟩ := ih hx
        exact ⟨i + 1, by simpa using Nat.succ_lt_succ hi, by simpa using hget⟩

/-- A concrete configuration used to instantiate the theorems below:
prior [0, 1] with PRIOR_N = 2 draws, population 100, horizon 10,
observed mean 10 and observed standard deviation 2. -/
def testSettings : Settings :=
  { PRIOR_L := 0, PRIOR_U := 1, PRIOR_N := 2, SIM_POP_SIZE := 100,
    TIME_STEPS := 10, OBS_MEAN := 10, OBS_STDEV := 2 }

/-! ### Claim theorems for the Calibration class -/

/-- C1: the claim fails on the code.  sample_posterior assigns ids
0..n_samples-1 but draws Sets.PRIOR_N parameter values, so the number of
drawn values does not equal the number of assigned ids whenever
n_samples differs from Sets.PRIOR_N: under a configuration with
PRIOR_N = 2, the call sample_posterior(3) draws 2 values and assigns
3 ids. -/
theorem sample_posterior_count_mismatch :
    ((sample_posterior testSettings (fun _ _ _ => 0.5) (fun _ => 0) 3).mortalitySamples).length
      = 2 ∧
    ((sample_posterior testSettings (fun _ _ _ => 0.5) (fun _ => 0) 3).cohortIDs).length = 3 ∧
    (2 : ℕ) ≠ 3 := by
  refine ⟨?_, ?_, by norm_num⟩ <;>
    simp [sample_posterior, mortalitySamples_of, cohortIDs_of, testSettings]

/-- C2: after sample_posterior with n_samples at least 1 and a positive
observed standard deviation, every normalized weight is non-negative and
the normalized weights sum to 1 within absolute tolerance 1e-9 (in this
real-number model the sum is exactly 1). -/
theorem normalized_weights_valid (sets : Settings) (uniformDraw : ℝ → ℝ → ℕ → ℝ)
    (meanSurvival : ℕ → ℝ) (n_samples : ℕ)
    (hstdev : 0 < sets.OBS_STDEV) (hn : 1 ≤ n_samples) :
    (∀ w ∈ (sample_posterior sets uniformDraw meanSurvival n_samples).normalizedWeights,
      0 ≤ w) ∧
    |((sample_posterior sets uniformDraw meanSurvival n_samples).normalizedWeights).sum - 1|
      ≤ 1 / 10 ^ 9 := by
  have hpos : ∀ w ∈ weights_of sets meanSurvival n_samples, 0 < w := by
    intro w hw
    obtain ⟨cid, _, rfl⟩ := List.mem_map.mp hw
    exact normPdf_pos _ _ _ hstdev
  have hlen : (weights_of sets meanSurvival n_samples).length = n_samples := by
    simp [weights_of, cohortIDs_of]
  have hne : weights_of sets meanSurvival n_samples ≠ [] := by
    intro h
    rw [h] at hlen
    simp only [List.length_nil] at hlen
    omega
  have hsum : 0 < (weights_of sets meanSurvival n_samples).sum :=
    List.sum_pos _ hpos hne
  constructor
  · intro w hw
    simp only [sample_posterior, normalize_weights] at hw
    obtain ⟨v, hv, rfl⟩ := List.mem_map.mp hw
    exact div_nonneg (le_of_lt (hpos v hv)) (le_of_lt hsum)
  · simp only [sample_posterior, normalize_weights]
    rw [list_sum_map_div, div_self (ne_of_gt hsum)]
    norm_num

/-- Witness for C2 at the concrete configuration, with one sample and the
simulator oracle returning mean survival time 0. -/
theorem normalized_weights_valid_witness :
    (∀ w ∈ (sample_posterior testSettings (fun _ _ _ => 0.5) (fun _ => 0) 1).normalizedWeights,
      0 ≤ w) ∧
    |((sample_posterior testSettings (fun _ _ _ => 0.5) (fun _ => 0) 1).normalizedWeights).sum
      - 1| ≤ 1 / 10 ^ 9 :=
  normalized_weights_valid testSettings (fun _ _ _ => 0.5) (fun _ => 0) 1
    (by norm_num [testSettings]) (by norm_num)

/-- C4 counterexample: when the raw likelihood weights sum to zero, the
code does not abort: normalization (lines 71-73) and the CSV report
(lines 76-85) are computed unconditionally, so rows holding the
degenerately normalized weights are still produced and written.  (numpy
would produce NaN entries where this real-number model produces 0.) -/
theorem zero_sum_weights_not_aborted :
    ([(0 : ℝ), 0].sum = 0) ∧
    normalize_weights [0, 0] = [0, 0] ∧
    calibration_csv_rows [0, 1] (normalize_weights [0, 0]) [0.25, 0.75]
      = [(0, 0, 0.25), (1, 0, 0.75)] := by
  refine ⟨by norm_num, by norm_num [normalize_weights], ?_⟩
  norm_num [calibration_csv_rows, normalize_weights, List.range_succ]

/-- C4 amended: sample_posterior performs no check on the weight sum;
np.divide and the CSV report are applied unconditionally, producing one
output row per drawn sample whatever the weight sum is. -/
theorem normalization_unconditional (ids : List ℕ) (weights samples : List ℝ) :
    (normalize_weights weights).length = weights.length ∧
    (calibration_csv_rows ids (normalize_weights weights) samples).length
      = samples.length := by
  constructor <;> simp [normalize_weights, calibration_csv_rows]

/-- C5: each candidate weight is the Gaussian density of the observed
mean with location the simulated mean and scale the observed standard
deviation, and the candidate whose simulated mean is closer to the
observed mean receives the weakly greater weight. -/
theorem likelihood_weight_gaussian (sets : Settings) (meanSurvival : ℕ → ℝ) (id1 id2 : ℕ)
    (hstdev : 0 < sets.OBS_STDEV)
    (hcloser : |meanSurvival id1 - sets.OBS_MEAN| ≤ |meanSurvival id2 - sets.OBS_MEAN|) :
    (∀ cid, likelihood_weight sets meanSurvival cid
        = normPdf sets.OBS_MEAN (meanSurvival cid) sets.OBS_STDEV) ∧
    likelihood_weight sets meanSurvival id2 ≤ likelihood_weight sets meanSurvival id1 := by
  refine ⟨fun _ => rfl, ?_⟩
  unfold likelihood_weight normPdf
  have hsq : (sets.OBS_MEAN - meanSurvival id1) ^ 2
      ≤ (sets.OBS_MEAN - meanSurvival id2) ^ 2 := by
    have h1 : |sets.OBS_MEAN - meanSurvival id1| ≤ |sets.OBS_MEAN - meanSurvival id2| := by
      rwa [abs_sub_comm sets.OBS_MEAN, abs_sub_comm sets.OBS_MEAN]
    calc (sets.OBS_MEAN - meanSurvival id1) ^ 2
        = |sets.OBS_MEAN - meanSurvival id1| ^ 2 := (sq_abs _).symm
      _ ≤ |sets.OBS_MEAN - meanSurvival id2| ^ 2 := by
          exact pow_le_pow_left₀ (abs_nonneg _) h1 2
      _ = (sets.OBS_MEAN - meanSurvival id2) ^ 2 := sq_abs _
  have hden : (0 : ℝ) < 2 * sets.OBS_STDEV ^ 2 := by positivity
  have hexp : Real.exp (-(sets.OBS_MEAN - meanSurvival id2) ^ 2 / (2 * sets.OBS_STDEV ^ 2))
      ≤ Real.exp (-(sets.OBS_MEAN - meanSurvival id1) ^ 2 / (2 * sets.OBS_STDEV ^ 2)) :=
    Real.exp_le_exp.mpr ((div_le_div_iff_of_pos_right hden).mpr (neg_le_neg hsq))
  have hc : (0 : ℝ) ≤ (sets.OBS_STDEV * Real.sqrt (2 * Real.pi))⁻¹ := by positivity
  exact mul_le_mul_of_nonneg_left hexp hc

/-- Witness for C5: with observed mean 10 and the simulator oracle
returning the cohort id as mean survival time, cohort 10 (distance 0) is
weighted at least as heavily as cohort 13 (distance 3). -/
theorem likelihood_weight_gaussian_witness :
    (∀ cid, likelihood_weight testSettings (fun cid => (cid : ℝ)) cid
        = normPdf testSettings.OBS_MEAN ((cid : ℝ)) testSettings.OBS_STDEV) ∧
    likelihood_weight testSettings (fun cid => (cid : ℝ)) 13
      ≤ likelihood_weight testSettings (fun cid => (cid : ℝ)) 10 :=
  likelihood_weight_gaussian testSettings (fun cid => (cid : ℝ)) 10 13
    (by norm_num [testSettings]) (by norm_num [testSettings])

/-! ### Effective sample size: helper lemmas -/

lemma list_sum_map_sq_eq_sum (l : List ℝ) (h : ∀ x ∈ l, x ^ 2 = x) :
    (l.map (fun w => w ^ 2)).sum = l.sum := by
  induction l with
  | nil => simp
  | cons a t ih =>
      simp only [List.map_cons, List.sum_cons]
      rw [h a (List.mem_cons_self a t), ih (fun x hx => h x (List.mem_cons_of_mem a hx))]

lemma sum_sq_ge_inv_length (ws : List ℝ) (hsum : ws.sum = 1) (hne : ws ≠ []) :
    (ws.length : ℝ)⁻¹ ≤ (ws.map (fun w => w ^ 2)).sum := by
  have hnR : (0 : ℝ) < ws.length := by exact_mod_cast List.length_pos.mpr hne
  have hn0 : (ws.length : ℝ) ≠ 0 := ne_of_gt hnR
  have key : (ws.map (fun w => (w - (ws.length : ℝ)⁻¹) ^ 2)).sum
      = (ws.map (fun w => w ^ 2)).sum - (ws.length : ℝ)⁻¹ := by
    rw [list_sum_map_sub_sq, hsum]
    field_simp
    ring
  have hshift : 0 ≤ (ws.map (fun w => (w - (ws.length : ℝ)⁻¹) ^ 2)).sum :=
    List.sum_nonneg (fun x hx => by
      obtain ⟨w, _, rfl⟩ := List.mem_map.mp hx
      positivity)
  linarith

lemma sum_sq_le_sum (ws : List ℝ) (hnn : ∀ w ∈ ws, 0 ≤ w) (hsum : ws.sum = 1) :
    (ws.map (fun w => w ^ 2)).sum ≤ 1 := by
  have hle1 : ∀ w ∈ ws, w ≤ 1 := fun w hw => by
    have := List.single_le_sum hnn w hw
    rwa [hsum] at this
  have hid := list_sum_mul_one_sub ws
  have hnn2 : 0 ≤ (ws.map (fun w => w * (1 - w))).sum :=
    List.sum_nonneg (fun x hx => by
      obtain ⟨w, hw, rfl⟩ := List.mem_map.mp hx
      exact mul_nonneg (hnn w hw) (by linarith [hle1 w hw]))
  rw [hsum] at hid
  linarith

lemma sum_sq_eq_inv_length_iff (ws : List ℝ) (hsum : ws.sum = 1) (hne : ws ≠ []) :
    (ws.map (fun w => w ^ 2)).sum = (ws.length : ℝ)⁻¹
      ↔ ∀ w ∈ ws, w = (ws.length : ℝ)⁻¹ := by
  have hnR : (0 : ℝ) < ws.length := by exact_mod_cast List.length_pos.mpr hne
  have hn0 : (ws.length : ℝ) ≠ 0 := ne_of_gt hnR
  have key : (ws.map (fun w => (w - (ws.length : ℝ)⁻¹) ^ 2)).sum
      = (ws.map (fun w => w ^ 2)).sum - (ws.length : ℝ)⁻¹ := by
    rw [list_sum_map_sub_sq, hsum]
    field_simp
    ring
  constructor
  · intro hS2 w hw
    have hz : (ws.map (fun w => (w - (ws.length : ℝ)⁻¹) ^ 2)).sum = 0 := by
      rw [key, hS2]
      ring
    have hterm : (w - (ws.length : ℝ)⁻¹) ^ 2 = 0 :=
      List.all_zero_of_le_zero_le_of_sum_eq_zero
        (fun y hy => by obtain ⟨v, _, rfl⟩ := List.mem_map.mp hy; positivity)
        hz (List.mem_map_of_mem _ hw)
    have := sq_eq_zero_iff.mp hterm
    linarith
  · intro hall
    have hconst : ∀ x ∈ ws.map (fun w => w ^ 2), x = ((ws.length : ℝ)⁻¹) ^ 2 := by
      intro x hx
      obtain ⟨w, hw, rfl⟩ := List.mem_map.mp hx
      rw [hall w hw]
    have hsc := list_sum_const _ _ hconst
    rw [List.length_map] at hsc
    rw [hsc]
    field_simp
    ring

lemma sum_sq_eq_one_iff (ws : List ℝ) (hnn : ∀ w ∈ ws, 0 ≤ w) (hsum : ws.sum = 1) :
    (ws.map (fun w => w ^ 2)).sum = 1 ↔ ∀ w ∈ ws, w = 0 ∨ w = 1 := by
  have hle1 : ∀ w ∈ ws, w ≤ 1 := fun w hw => by
    have := List.single_le_sum hnn w hw
    rwa [hsum] at this
  constructor
  · intro hS2 w hw
    have hid := list_sum_mul_one_sub ws
    rw [hsum, hS2] at hid
    have hz : (ws.map (fun w => w * (1 - w))).sum = 0 := by
      rw [hid]
      ring
    have hterm : w * (1 - w) = 0 :=
      List.all_zero_of_le_zero_le_of_sum_eq_zero
        (fun y hy => by
          obtain ⟨v, hv, rfl⟩ := List.mem_map.mp hy
          exact mul_nonneg (hnn v hv) (by linarith [hle1 v hv]))
        hz (List.mem_map_of_mem _ hw)
    rcases mul_eq_zero.mp hterm with h | h
    · exact Or.inl h
    · right
      linarith
  · intro h01
    have hsq : ∀ x ∈ ws, x ^ 2 = x := fun x hx => by
      rcases h01 x hx with h | h <;> rw [h] <;> norm_num
    rw [list_sum_map_sq_eq_sum ws hsq, hsum]

lemma one_hot_of_zero_one (l : List ℝ) (h01 : ∀ x ∈ l, x = 0 ∨ x = 1) (hsum : l.sum = 1) :
    ∃ i, i < l.length ∧ l.getD i 0 = 1 ∧
      ∀ j, j < l.length → j ≠ i → l.getD j 0 = 0 := by
  induction l with
  | nil => simp at hsum
  | cons a t ih =>
      rw [List.sum_cons] at hsum
      have h01t : ∀ x ∈ t, x = 0 ∨ x = 1 := fun x hx => h01 x (List.mem_cons_of_mem a hx)
      rcases h01 a (List.mem_cons_self a t) with ha | ha
      · have hts : t.sum = 1 := by linarith
        obtain ⟨i, hi, h1, h0⟩ := ih h01t hts
        refine ⟨i + 1, by simpa using Nat.succ_lt_succ hi, by simpa using h1, ?_⟩
        intro j hj hne
        cases j with
        | zero => simpa [List.getD_cons_zero] using ha
        | succ k =>
            have hk : k < t.length := by simpa using hj
            have hki : k ≠ i := fun hEq => hne (by rw [hEq])
            simpa using h0 k hk hki
      · have hts : t.sum = 0 := by linarith
        have htz : ∀ x ∈ t, x = 0 := fun x hx =>
          List.all_zero_of_le_zero_le_of_sum_eq_zero
            (fun y hy => by rcases h01t y hy with h | h <;> norm_num [h]) hts hx
        refine ⟨0, by simp, by simpa [List.getD_cons_zero] using ha, ?_⟩
        intro j hj hne
        cases j with
        | zero => exact absurd rfl hne
        | succ k =>
            have hk : k < t.length := by simpa using hj
            simpa using htz _ (list_getD_mem t k hk)

lemma zero_one_of_one_hot (l : List ℝ)
    (h : ∃ i, i < l.length ∧ l.getD i 0 = 1 ∧
      ∀ j, j < l.length → j ≠ i → l.getD j 0 = 0) :
    ∀ w ∈ l, w = 0 ∨ w = 1 := by
  obtain ⟨i, _, h1, h0⟩ := h
  intro w hw
  obtain ⟨j, hj, hget⟩ := list_exists_getD_of_mem l w hw
  by_cases hji : j = i
  · right
    rw [← hget, hji]
    exact h1
  · left
    rw [← hget]
    exact h0 j hj hji

/-- C3: get_effective_sample_size returns the reciprocal of the sum of
squared normalized weights; for every valid normalized weight vector it
lies in [1, n_samples], equals n_samples exactly when all weights are
equal, and equals 1 exactly when all mass sits on one sample. -/
theorem effective_sample_size_spec (ws : List ℝ)
    (hnn : ∀ w ∈ ws, 0 ≤ w) (hsum : ws.sum = 1) :
    get_effective_sample_size ws = 1 / (ws.map (fun w => w ^ 2)).sum ∧
    1 ≤ get_effective_sample_size ws ∧
    get_effective_sample_size ws ≤ (ws.length : ℝ) ∧
    (get_effective_sample_size ws = (ws.length : ℝ) ↔ ∀ w ∈ ws, ∀ v ∈ ws, w = v) ∧
    (get_effective_sample_size ws = 1 ↔
      ∃ i, i < ws.length ∧ ws.getD i 0 = 1 ∧
        ∀ j, j < ws.length → j ≠ i → ws.getD j 0 = 0) := by
  have hne : ws ≠ [] := by
    intro h
    rw [h] at hsum
    simp at hsum
  have hnR : (0 : ℝ) < ws.length := by exact_mod_cast List.length_pos.mpr hne
  have hn0 : (ws.length : ℝ) ≠ 0 := ne_of_gt hnR
  have hge := sum_sq_ge_inv_length ws hsum hne
  have hle := sum_sq_le_sum ws hnn hsum
  have hpos : 0 < (ws.map (fun w => w ^ 2)).sum :=
    lt_of_lt_of_le (inv_pos.mpr hnR) hge
  have hESS : get_effective_sample_size ws = 1 / (ws.map (fun w => w ^ 2)).sum := rfl
  refine ⟨rfl, ?_, ?_, ?_, ?_⟩
  · rw [hESS, le_div_iff₀ hpos, one_mul]
    exact hle
  · rw [hESS, div_le_iff₀ hpos]
    have h1 : (ws.length : ℝ) * (ws.length : ℝ)⁻¹
        ≤ (ws.length : ℝ) * (ws.map (fun w => w ^ 2)).sum :=
      mul_le_mul_of_nonneg_left hge (le_of_lt hnR)
    rw [mul_inv_cancel₀ hn0] at h1
    linarith
  · rw [hESS]
    constructor
    · intro h
      have hS2eq : (ws.map (fun w => w ^ 2)).sum = (ws.length : ℝ)⁻¹ := by
        rw [← one_div_one_div ((ws.map (fun w => w ^ 2)).sum), h, one_div]
      have hall := (sum_sq_eq_inv_length_iff ws hsum hne).mp hS2eq
      intro w hw v hv
      rw [hall w hw, hall v hv]
    · intro hpair
      have hall : ∀ w ∈ ws, w = (ws.length : ℝ)⁻¹ := by
        intro w hw
        have hconst : ∀ x ∈ ws, x = w := fun x hx => hpair x hx w hw
        have hsc := list_sum_const ws w hconst
        rw [hsum] at hsc
        field_simp
        linear_combination -hsc
      have hS2eq := (sum_sq_eq_inv_length_iff ws hsum hne).mpr hall
      rw [hS2eq, one_div, inv_inv]
  · rw [hESS]
    constructor
    · intro h
      have hS2eq : (ws.map (fun w => w ^ 2)).sum = 1 := by
        rw [← one_div_one_div ((ws.map (fun w => w ^ 2)).sum), h]
        norm_num
      exact one_hot_of_zero_one ws ((sum_sq_eq_one_iff ws hnn hsum).mp hS2eq) hsum
    · intro hoh
      have hS2eq := (sum_sq_eq_one_iff ws hnn hsum).mpr (zero_one_of_one_hot ws hoh)
      rw [hS2eq]
      norm_num

/-- Witness for C3 at the equal normalized weight vector of length 2. -/
theorem effective_sample_size_spec_witness :
    get_effective_sample_size [(1 : ℝ)/2, 1/2]
      = 1 / (([(1 : ℝ)/2, 1/2]).map (fun w => w ^ 2)).sum ∧
    1 ≤ get_effective_sample_size [(1 : ℝ)/2, 1/2] ∧
    get_effective_sample_size [(1 : ℝ)/2, 1/2]
      ≤ (([(1 : ℝ)/2, 1/2] : List ℝ).length : ℝ) ∧
    (get_effective_sample_size [(1 : ℝ)/2, 1/2] = (([(1 : ℝ)/2, 1/2] : List ℝ).length : ℝ)
      ↔ ∀ w ∈ [(1 : ℝ)/2, 1/2], ∀ v ∈ [(1 : ℝ)/2, 1/2], w = v) ∧
    (get_effective_sample_size [(1 : ℝ)/2, 1/2] = 1 ↔
      ∃ i, i < ([(1 : ℝ)/2, 1/2] : List ℝ).length ∧
        ([(1 : ℝ)/2, 1/2] : List ℝ).getD i 0 = 1 ∧
        ∀ j, j < ([(1 : ℝ)/2, 1/2] : List ℝ).length → j ≠ i
          → ([(1 : ℝ)/2, 1/2] : List ℝ).getD j 0 = 0) :=
  effective_sample_size_spec [(1 : ℝ)/2, 1/2]
    (by intro w hw; fin_cases hw <;> norm_num) (by norm_num)

/-! ### Claim theorems for the CalibratedModel class -/

/-- C6 counterexample: a calibration table whose weight column sums to
0.5 (not 1) is loaded without any failure; the weights are stored exactly
as read.  The claimed weight-sum ParseError does not exist in the code. -/
theorem load_accepts_nonunit_weight_sum :
    (CalibratedModel.init [⟨0, 0.25, 0.2⟩, ⟨1, 0.25, 0.8⟩] 1).weights = [0.25, 0.25] ∧
    ((0.25 : ℝ) + 0.25 ≠ 1) := by
  constructor
  · simp [CalibratedModel.init]
  · norm_num

/-- C6 amended: construction parses the three columns (shape enforcement
is delegated to the external reader IO.read_csv_cols with n_cols = 3) and
stores the weight column exactly as loaded, with no sum-to-1 check and no
renormalization, for every input table. -/
theorem init_stores_weights_unchanged (rows : List CalibrationRow)
    (drug_effectiveness_ratio : ℝ) :
    (CalibratedModel.init rows drug_effectiveness_ratio).weights
      = rows.map (fun r => r.weight) ∧
    (CalibratedModel.init rows drug_effectiveness_ratio).cohortIDs
      = rows.map (fun r => r.id) := by
  exact ⟨rfl, rfl⟩

/-- C7: construction multiplies every loaded parameter by
drug_effectiveness_ratio; ratio 1 leaves the parameters unchanged, and
the table [(0, 0.5, 0.2), (1, 0.5, 0.8)] with ratio 0.5 loads the
parameters [0.1, 0.4]. -/
theorem init_rescales_parameters (rows : List CalibrationRow) (ratio : ℝ) :
    (CalibratedModel.init rows ratio).mortalityProbs
      = rows.map (fun r => r.mortalityProb * ratio) ∧
    (CalibratedModel.init rows 1).mortalityProbs
      = rows.map (fun r => r.mortalityProb) ∧
    (CalibratedModel.init [⟨0, 0.5, 0.2⟩, ⟨1, 0.5, 0.8⟩] 0.5).mortalityProbs
      = [0.1, 0.4] := by
  refine ⟨rfl, ?_, ?_⟩
  · simp [CalibratedModel.init]
  · simp [CalibratedModel.init]
    norm_num

/-- The model loaded from the two-row table used in the C8 counterexample. -/
def twoRowModel : CalibratedModel :=
  CalibratedModel.init [⟨0, 0.5, 0.2⟩, ⟨1, 0.5, 0.8⟩] 1

/-- C8 counterexample: simulate with num_of_simulated_cohorts = 2 but a
caller-provided cohort_ids list of length 1 does not abort: the mismatched
ids are handed to the simulator verbatim, next to pop_sizes of length 2. -/
theorem simulate_accepts_mismatched_cohort_ids :
    (twoRowModel.simulate 2 10 5 (fun _ => 0) (some [7])).multiCohorts
      = some { ids := [7], popSizes := [10, 10],
               mortalityProbs := [0.2, 0.2], timeSteps := 5 } ∧
    ([(7 : ℤ)].length ≠ 2) := by
  constructor
  · simp [twoRowModel, CalibratedModel.simulate, CalibratedModel.init, List.range_succ]
  · norm_num

/-- C8 amended: simulate performs no length check on a caller-provided
cohort_ids list; whatever its length, the ids are passed unchanged to the
simulator while pop_sizes has length num_of_simulated_cohorts. -/
theorem simulate_passes_cohort_ids_through (m : CalibratedModel)
    (num_of_simulated_cohorts cohort_size time_steps : ℕ) (choiceIdx : ℕ → ℕ)
    (given : List ℤ) :
    (m.simulate num_of_simulated_cohorts cohort_size time_steps choiceIdx
        (some given)).multiCohorts
      = some { ids := given
               popSizes := List.replicate num_of_simulated_cohorts cohort_size
               mortalityProbs := m.resampledMortalityProb ++
                 ((List.range num_of_simulated_cohorts).map choiceIdx).map
                   (fun i => m.mortalityProbs.getD i 0)
               timeSteps := time_steps } := rfl

/-- C9: each simulate call appends exactly num_of_simulated_cohorts
resampled parameter values to resampledMortalityProb, keeping the values
already accumulated; successive calls concatenate; and the credible
interval query is computed from the accumulated list. -/
theorem simulate_accumulates_resamples (m : CalibratedModel)
    (k1 sz1 ts1 k2 sz2 ts2 : ℕ) (rng1 rng2 : ℕ → ℕ)
    (cids1 cids2 : Option (List ℤ))
    (summaryMean : List ℝ → ℝ) (summaryPI : List ℝ → ℝ → ℝ × ℝ) (alpha : ℝ) :
    (m.simulate k1 sz1 ts1 rng1 cids1).resampledMortalityProb
      = m.resampledMortalityProb
        ++ (List.range k1).map (fun i => m.mortalityProbs.getD (rng1 i) 0) ∧
    ((m.simulate k1 sz1 ts1 rng1 cids1).resampledMortalityProb).length
      = m.resampledMortalityProb.length + k1 ∧
    ((m.simulate k1 sz1 ts1 rng1 cids1).simulate k2 sz2 ts2 rng2 cids2).resampledMortalityProb
      = m.resampledMortalityProb
        ++ (List.range k1).map (fun i => m.mortalityProbs.getD (rng1 i) 0)
        ++ (List.range k2).map (fun i => m.mortalityProbs.getD (rng2 i) 0) ∧
    (m.simulate k1 sz1 ts1 rng1 cids1).get_mortality_estimate_credible_interval
        summaryMean summaryPI alpha
      = (summaryMean (m.resampledMortalityProb
            ++ (List.range k1).map (fun i => m.mortalityProbs.getD (rng1 i) 0)),
         summaryPI (m.resampledMortalityProb
            ++ (List.range k1).map (fun i => m.mortalityProbs.getD (rng1 i) 0)) alpha) := by
  refine ⟨?_, ?_, ?_, ?_⟩
  · simp [CalibratedModel.simulate]
  · simp [CalibratedModel.simulate]
  · simp [CalibratedModel.simulate, Function.comp_def]
  · simp [CalibratedModel.simulate, Function.comp_def,
      CalibratedModel.get_mortality_estimate_credible_interval]

/-- C10: simulate leaves the fields loaded at construction time -
cohortIDs, weights and mortalityProbs - unchanged; the only fields it
writes are resampledMortalityProb and multiCohorts. -/
theorem simulate_preserves_loaded_fields (m : CalibratedModel)
    (num_of_simulated_cohorts cohort_size time_steps : ℕ) (choiceIdx : ℕ → ℕ)
    (cohort_ids : Option (List ℤ)) :
    (m.simulate num_of_simulated_cohorts cohort_size time_steps choiceIdx
        cohort_ids).cohortIDs = m.cohortIDs ∧
    (m.simulate num_of_simulated_cohorts cohort_size time_steps choiceIdx
        cohort_ids).weights = m.weights ∧
    (m.simulate num_of_simulated_cohorts cohort_size time_steps choiceIdx
        cohort_ids).mortalityProbs = m.mortalityProbs := by
  exact ⟨rfl, rfl, rfl⟩
